import Mathlib

/-!
Shallow embedding of the research-progress frontend of
`ag-ui-langgraph-app`: the step derivation, phase/stage describer,
progress-log derivation, URL truncation, source-count display, the
report canvas branching and the delayed-stop controller, together with
theorems about the spec's claims.

JavaScript idioms are modelled explicitly: `x || d` on possibly-missing
strings (empty string is falsy), `Array.prototype.indexOf` and
`findIndex` returning `-1` on failure, optional chaining via `Option`.
-/

/-- JS `x || d` for a possibly-undefined string `x`: `undefined`/`null`
and the empty string are falsy and fall back to the default. -/
def jsOrString (o : Option String) (d : String) : String :=
  match o with
  | none => d
  | some s => if s = "" then d else s

/-- JS `Array.prototype.indexOf`: first index of `x` in `l`, `-1` when absent. -/
def jsIndexOf (l : List String) (x : String) : Int :=
  match l with
  | [] => -1
  | a :: tl =>
    if x == a then 0
    else
      let r := jsIndexOf tl x
      if r = -1 then -1 else r + 1

/-- JS `Array.prototype.findIndex`: first index satisfying `p`, `-1` when none. -/
def jsFindIndex {α : Type} (p : α → Bool) : List α → Int
  | [] => -1
  | a :: tl =>
    if p a then 0
    else
      let r := jsFindIndex p tl
      if r = -1 then -1 else r + 1

/-- JS `word.charAt(0).toUpperCase() + word.slice(1)`. -/
def capitalizeWord (s : String) : String :=
  match s.data with
  | [] => ""
  | c :: cs => String.mk (c.toUpper :: cs)

/-- JS `Array.prototype.map((x, index) => ...)`, carrying the start index. -/
def mapWithIndexFrom {α β : Type} (f : Nat → α → β) : Nat → List α → List β
  | _, [] => []
  | i, a :: tl => f i a :: mapWithIndexFrom f (i + 1) tl

/-- JS `Array.prototype.map((x, index) => ...)` from index 0. -/
def mapWithIndex {α β : Type} (f : Nat → α → β) (l : List α) : List β :=
  mapWithIndexFrom f 0 l

/-! ## Data model (`ResearchAgentState`, §3 of the spec)

Every nested field is `Option`-valued: the frontend receives partial
snapshots, and all derivations must be total over partially-populated
state. -/

/-- One research source: title, url, optional snippet. -/
structure Source where
  title : String
  url : String
  snippet : Option String
deriving Repr, DecidableEq

/-- `state.status`. -/
structure Status where
  phase : Option String
  error : Option String
deriving Repr, DecidableEq

/-- `state.research`. -/
structure Research where
  query : Option String
  stage : Option String
  sources_found : Option Int
  sources : Option (List Source)
  completed : Option Bool
deriving Repr, DecidableEq

/-- `state.processing`. `progress` is a number in the source; it is
never consumed by the derivations under verification, so it is kept as
an integer percentage. -/
structure Processing where
  progress : Option Int
  report : Option String
  completed : Option Bool
  inProgress : Option Bool
deriving Repr, DecidableEq

/-- `state.ui` (presentation-only). -/
structure UIState where
  showSources : Option Bool
  showProgress : Option Bool
  activeTab : Option String
deriving Repr, DecidableEq

/-- The root `ResearchAgentState`; the whole record may itself be absent
(`state?.` in the source). -/
structure ResearchAgentState where
  status : Option Status
  research : Option Research
  processing : Option Processing
  ui : Option UIState
deriving Repr, DecidableEq

/-- A derived workflow step (ephemeral, recomputed per render). -/
structure DerivedStep where
  id : String
  label : String
  description : String
  completed : Bool
  current : Bool
deriving Repr, DecidableEq

/-- A derived progress-log entry. -/
structure LogEntry where
  done : Bool
  message : String
deriving Repr, DecidableEq

/-! ## Phase/stage describer (`getStepDetails`, page.tsx lines 42-82) -/

/-- `getStepDetails(phase, stage)`: the `phaseMap` object lookup with
`|| "Processing..."` fallback, translated branch for branch. -/
def getStepDetails (phase stage : String) : String :=
  if phase == "idle" then "Getting ready..."
  else if phase == "initialized" then "Setting up research parameters"
  else if phase == "gathering_information" then
    if stage == "searching" then "Searching the web for information"
    else "Gathering and collecting data"
  else if phase == "analyzing_information" then
    if stage == "organizing_data" then "Organizing research data"
    else "Processing and analyzing information"
  else if phase == "generating_report" then
    if stage == "creating_detailed_report" || stage == "outlining_report" then
      "Creating report outline"
    else if stage == "drafting_executive_summary" then "Writing executive summary"
    else if stage == "writing_introduction" then "Drafting introduction"
    else if stage == "compiling_key_findings" then "Compiling key findings"
    else if stage == "developing_analysis" then "Developing detailed analysis"
    else if stage == "forming_conclusions" then "Forming conclusions"
    else if stage == "finalizing_report" then "Finalizing comprehensive report"
    else "Generating detailed report"
  else if phase == "completed" then
    if stage == "report_complete" then "Research report completed"
    else "Research completed"
  else "Processing..."

/-! ## Step derivation (`getStepsFromState`, page.tsx lines 101-123) -/

/-- The fixed 5-phase sequence (`allPhases`). -/
def allPhases : List String :=
  ["initialized", "gathering_information", "analyzing_information",
   "generating_report", "completed"]

/-- `state?.status?.phase || "idle"`. -/
def statePhase (state : Option ResearchAgentState) : String :=
  jsOrString ((state.bind ResearchAgentState.status).bind Status.phase) "idle"

/-- `state?.research?.stage || "not_started"`. -/
def stateStage (state : Option ResearchAgentState) : String :=
  jsOrString ((state.bind ResearchAgentState.research).bind Research.stage) "not_started"

/-- The body of `allPhases.map(...)` in `getStepsFromState`. -/
def mkStep (currentPhase currentStage phase : String) : DerivedStep :=
  { id := phase
    label := String.intercalate " " ((phase.splitOn "_").map capitalizeWord)
    description := getStepDetails phase currentStage
    completed := decide (jsIndexOf allPhases currentPhase > jsIndexOf allPhases phase)
    current := currentPhase == phase }

/-- `getStepsFromState()`: one derived step per phase of `allPhases`. -/
def getStepsFromState (state : Option ResearchAgentState) : List DerivedStep :=
  let currentPhase := statePhase state
  let currentStage := stateStage state
  allPhases.map (mkStep currentPhase currentStage)

/-! ## Progress-log derivation (`logs`, page.tsx lines 126-132) -/

/-- `steps.map((step, index) => ({done: ..., message: ...}))` with
`currentStepIndex = steps.findIndex(step => step.current)`. -/
def logsOfSteps (steps : List DerivedStep) : List LogEntry :=
  let currentStepIndex := jsFindIndex (fun s => s.current) steps
  mapWithIndex
    (fun index step =>
      { done := step.completed || decide ((index : Int) < currentStepIndex)
        message := step.label ++ ": " ++ step.description })
    steps

/-- The full state-to-logs pipeline of the page render. -/
def logsOfState (state : Option ResearchAgentState) : List LogEntry :=
  logsOfSteps (getStepsFromState state)

/-! ## URL truncation (`truncateUrl`, Progress component lines 23-26) -/

/-- `truncateUrl(url)`: strings of length at most 50 pass through,
longer ones become `url.substring(0, 47) + "..."` (first 47 characters
then an ellipsis marker). -/
def truncateUrl (url : String) : String :=
  if url.length ≤ 50 then url
  else String.mk (url.data.take 47) ++ "..."

/-! ## Source-count display (Progress component lines 76-93) -/

/-- `(state?.research?.sources_found ?? 0)`. -/
def sourcesFoundOf (state : Option ResearchAgentState) : Int :=
  (((state.bind ResearchAgentState.research).bind Research.sources_found).getD 0)

/-- `state?.research?.sources?.length ?? 0`-style default for the list. -/
def sourcesOf (state : Option ResearchAgentState) : List Source :=
  (((state.bind ResearchAgentState.research).bind Research.sources).getD [])

/-- The source-count indicator of the Progress component:
rendered only when `(state?.research?.sources_found ?? 0) > 0`, with text
`Found {n} source{n !== 1 ? "s" : ""}`; `none` models the absent element. -/
def progressSourceCount (state : Option ResearchAgentState) : Option String :=
  if sourcesFoundOf state > 0 then
    some ("Found " ++ toString (sourcesFoundOf state) ++ " source"
      ++ (if sourcesFoundOf state ≠ 1 then "s" else ""))
  else none

/-! ## Report canvas branching (ReportCanvas.tsx lines 55-161) -/

/-- The observable choice made by the report card of `ReportCanvas`:
either the markdown report body is handed to the markdown renderer, or
the placeholder card with a heading and a message is shown. -/
inductive ReportView where
  | reportBody (markdown : String)
  | placeholder (heading : String) (message : String)
deriving Repr, DecidableEq

/-- The placeholder card: heading and message are each chosen by the
`running` flag (two distinct headings, two distinct messages). -/
def placeholderView (running : Bool) : ReportView :=
  ReportView.placeholder
    (if running then "Generating Report" else "Ready to Research")
    (if running then
      "Your research report will appear here once the analysis is complete."
     else
      "Ask me to research any topic and I'll generate a comprehensive, well-structured report for you.")

/-- `state?.processing?.report ? <report card> : <placeholder card>`:
JS truthiness, so `null`/`undefined` and the empty string both select the
placeholder branch. -/
def reportCanvas (state : Option ResearchAgentState) (running : Bool) : ReportView :=
  match (state.bind ResearchAgentState.processing).bind Processing.report with
  | some r => if r == "" then placeholderView running else ReportView.reportBody r
  | none => placeholderView running

/-! ## Delayed-stop controller (page.tsx lines 87-95)

The `handler` receives node-transition events; on `nodeName === "__end__"`
it calls `setTimeout(() => { isResearchInProgress.current = false;
stopResearchAgent(); }, 1000)`. Nothing cancels a pending timer and the
flag is never consulted before stopping. The discrete-event model below
records, for a finite trace of timestamped events, the scheduled callback
fire times and then fires every pending callback; `stopCalls` lists the
times at which `stopResearchAgent` is invoked. -/

/-- State of the run controller: the mutable in-progress ref, the fire
times of pending `setTimeout` callbacks, and the times at which the
external stop operation has been invoked. -/
structure ControllerState where
  isResearchInProgress : Bool
  pending : List Nat
  stopCalls : List Nat
deriving Repr, DecidableEq

/-- Initial controller state (`useRef(false)`, no timers, no stops). -/
def initController : ControllerState :=
  { isResearchInProgress := false, pending := [], stopCalls := [] }

/-- The `handler({ nodeName })` callback at time `t`: a terminal node
event schedules a stop callback at `t + 1000`; other events do nothing. -/
def handleNodeEvent (t : Nat) (nodeName : String) (s : ControllerState) : ControllerState :=
  if nodeName == "__end__" then { s with pending := s.pending ++ [t + 1000] }
  else s

/-- The `setTimeout` callback firing at time `t`: reset the flag and call
`stopResearchAgent()` (unconditionally). -/
def fireStopCallback (t : Nat) (s : ControllerState) : ControllerState :=
  { s with isResearchInProgress := false, stopCalls := s.stopCalls ++ [t] }

/-- Run a finite trace of `(time, nodeName)` events through the handler,
then let every pending timer fire. -/
def runTrace (events : List (Nat × String)) : ControllerState :=
  let afterEvents := events.foldl (fun s e => handleNodeEvent e.1 e.2 s) initController
  afterEvents.pending.foldl (fun s t => fireStopCallback t s)
    { afterEvents with pending := [] }

/-- Visibility of the progress rendering in page.tsx: the status gate is
commented out, so the progress UI is produced for every run status. -/
def showsProgress (_runStatus : String) : Bool :=
  true

/-! ## The second page variant (src/unnamed/part_000)

Independent translation of the near-duplicate page file; its derivations
are compared with the page.tsx ones in the refinement theorem. -/

namespace PageB

/-- part_000 `getStepDetails` (lines 42-82), translated from that file. -/
def getStepDetails (phase stage : String) : String :=
  if phase == "idle" then "Getting ready..."
  else if phase == "initialized" then "Setting up research parameters"
  else if phase == "gathering_information" then
    if stage == "searching" then "Searching the web for information"
    else "Gathering and collecting data"
  else if phase == "analyzing_information" then
    if stage == "organizing_data" then "Organizing research data"
    else "Processing and analyzing information"
  else if phase == "generating_report" then
    if stage == "creating_detailed_report" || stage == "outlining_report" then
      "Creating report outline"
    else if stage == "drafting_executive_summary" then "Writing executive summary"
    else if stage == "writing_introduction" then "Drafting introduction"
    else if stage == "compiling_key_findings" then "Compiling key findings"
    else if stage == "developing_analysis" then "Developing detailed analysis"
    else if stage == "forming_conclusions" then "Forming conclusions"
    else if stage == "finalizing_report" then "Finalizing comprehensive report"
    else "Generating detailed report"
  else if phase == "completed" then
    if stage == "report_complete" then "Research report completed"
    else "Research completed"
  else "Processing..."

/-- part_000 `allPhases` (lines 105-111). -/
def allPhases : List String :=
  ["initialized", "gathering_information", "analyzing_information",
   "generating_report", "completed"]

/-- part_000 step body (lines 113-123). -/
def mkStep (currentPhase currentStage phase : String) : DerivedStep :=
  { id := phase
    label := String.intercalate " " ((phase.splitOn "_").map capitalizeWord)
    description := getStepDetails phase currentStage
    completed := decide (jsIndexOf allPhases currentPhase > jsIndexOf allPhases phase)
    current := currentPhase == phase }

/-- part_000 `getStepsFromState` (lines 101-124). -/
def getStepsFromState (state : Option ResearchAgentState) : List DerivedStep :=
  let currentPhase := jsOrString ((state.bind ResearchAgentState.status).bind Status.phase) "idle"
  let currentStage := jsOrString ((state.bind ResearchAgentState.research).bind Research.stage) "not_started"
  allPhases.map (mkStep currentPhase currentStage)

/-- part_000 `logs` (lines 136-139). -/
def logsOfState (state : Option ResearchAgentState) : List LogEntry :=
  let steps := getStepsFromState state
  let currentStepIndex := jsFindIndex (fun s => s.current) steps
  mapWithIndex
    (fun index step =>
      { done := step.completed || decide ((index : Int) < currentStepIndex)
        message := step.label ++ ": " ++ step.description })
    steps

/-- Visibility of the progress rendering in part_000 (line 97): gated on
the render status signal being `inProgress` or `complete`. -/
def showsProgress (runStatus : String) : Bool :=
  runStatus == "inProgress" || runStatus == "complete"

end PageB

/-! ## Concrete states used by witnesses and counterexamples -/

/-- A state whose research record carries only a source count. -/
def stateWithSources (n : Int) : Option ResearchAgentState :=
  some { status := none
         research := some { query := none, stage := none,
                            sources_found := some n, sources := none,
                            completed := none }
         processing := none, ui := none }

/-- A state whose processing record carries an empty-string report. -/
def emptyReportState : Option ResearchAgentState :=
  some { status := none, research := none
         processing := some { progress := none, report := some "",
                              completed := none, inProgress := none }
         ui := none }

/-- A state whose processing record carries a small markdown report. -/
def titledReportState : Option ResearchAgentState :=
  some { status := none, research := none
         processing := some { progress := none, report := some "# Title\n\nBody",
                              completed := none, inProgress := none }
         ui := none }

/-! ## Helper lemmas -/

theorem mapWithIndexFrom_length {α β : Type} (f : Nat → α → β) :
    ∀ (n : Nat) (l : List α), (mapWithIndexFrom f n l).length = l.length
  | _, [] => rfl
  | n, _ :: tl => by
      simp [mapWithIndexFrom, mapWithIndexFrom_length f (n + 1) tl]

theorem mapWithIndexFrom_getElem? {α β : Type} (f : Nat → α → β) :
    ∀ (n i : Nat) (l : List α),
      (mapWithIndexFrom f n l)[i]? = (l[i]?).map (f (n + i))
  | _, _, [] => by simp [mapWithIndexFrom]
  | n, 0, a :: tl => by simp [mapWithIndexFrom]
  | n, i + 1, a :: tl => by
      have e : n + 1 + i = n + (i + 1) := by omega
      simp [mapWithIndexFrom, mapWithIndexFrom_getElem? f (n + 1) i tl, e]

theorem truncateUrl_of_le (s : String) (h : s.length ≤ 50) :
    truncateUrl s = s := by
  simp [truncateUrl, h]

theorem truncateUrl_length (s : String) :
    (truncateUrl s).length = min s.length 50 := by
  by_cases h : s.length ≤ 50
  · rw [truncateUrl_of_le s h]; omega
  · have hd : 50 < s.data.length := by
      have hl : s.length = s.data.length := rfl
      omega
    simp only [truncateUrl, if_neg h, String.length_append]
    have h1 : (String.mk (s.data.take 47)).length = (s.data.take 47).length := rfl
    have h2 : ("..." : String).length = 3 := rfl
    rw [h1, h2, List.length_take]
    have hl : s.length = s.data.length := rfl
    omega

/-! ## Claim theorems -/

/-- C4: the URL truncation function returns strings of length at most 50
unchanged; for longer input it returns exactly the first 47 characters
followed by the ellipsis marker `"..."`, for a total length of 50. (The
function is pure, so applying it to a message cannot mutate any state.) -/
theorem c4_truncate_url (s : String) :
    (s.length ≤ 50 → truncateUrl s = s)
    ∧ (50 < s.length →
        truncateUrl s = String.mk (s.data.take 47) ++ "..."
        ∧ (truncateUrl s).length = 50) := by
  constructor
  · intro h; simp [truncateUrl, h]
  · intro h
    have hn : ¬ s.length ≤ 50 := by omega
    refine ⟨by simp [truncateUrl, hn], ?_⟩
    rw [truncateUrl_length]; omega

/-- Witness for C4 at a short and a long concrete string. -/
theorem c4_truncate_url_witness :
    ("http://x.com" : String).length ≤ 50
    ∧ truncateUrl "http://x.com" = "http://x.com"
    ∧ (truncateUrl (String.mk (List.replicate 60 'a'))).length = 50 := by
  refine ⟨by decide, (c4_truncate_url "http://x.com").1 (by decide), ?_⟩
  exact ((c4_truncate_url (String.mk (List.replicate 60 'a'))).2 (by decide)).2

/-- C10: the URL truncation function is idempotent, and its output
length is `min (input length) 50` — hence at most 50, and exactly 50
whenever the input is longer than 50. -/
theorem c10_truncate_url_idempotent (s : String) :
    truncateUrl (truncateUrl s) = truncateUrl s
    ∧ (truncateUrl s).length = min s.length 50 := by
  refine ⟨?_, truncateUrl_length s⟩
  have hlen : (truncateUrl s).length ≤ 50 := by
    rw [truncateUrl_length]; omega
  exact truncateUrl_of_le _ hlen

/-- C5: the phase/stage describer is total by construction; every phase
outside the six mapped ones yields `"Processing..."`; for
`generating_report` it branches on the stage, defaulting to
`"Generating detailed report"` on unrecognized stages, and
`drafting_executive_summary` yields `"Writing executive summary"`. -/
theorem c5_describer (phase stage : String) :
    (phase ∉ ["idle", "initialized", "gathering_information",
              "analyzing_information", "generating_report", "completed"] →
      getStepDetails phase stage = "Processing...")
    ∧ (stage ∉ ["creating_detailed_report", "outlining_report",
                "drafting_executive_summary", "writing_introduction",
                "compiling_key_findings", "developing_analysis",
                "forming_conclusions", "finalizing_report"] →
      getStepDetails "generating_report" stage = "Generating detailed report")
    ∧ getStepDetails "generating_report" "drafting_executive_summary"
        = "Writing executive summary" := by
  refine ⟨?_, ?_, by decide⟩
  · intro h
    simp only [List.mem_cons, List.not_mem_nil, or_false, not_or] at h
    obtain ⟨h1, h2, h3, h4, h5, h6⟩ := h
    simp [getStepDetails, h1, h2, h3, h4, h5, h6]
  · intro h
    simp only [List.mem_cons, List.not_mem_nil, or_false, not_or] at h
    obtain ⟨h1, h2, h3, h4, h5, h6, h7, h8⟩ := h
    simp [getStepDetails, h1, h2, h3, h4, h5, h6, h7, h8]

/-- Witness for C5 at an unmapped phase and an unmapped stage. -/
theorem c5_describer_witness :
    getStepDetails "mystery_phase" "anything" = "Processing..."
    ∧ getStepDetails "generating_report" "mystery_stage"
        = "Generating detailed report" :=
  ⟨(c5_describer "mystery_phase" "anything").1 (by decide),
   (c5_describer "generating_report" "mystery_stage").2.1 (by decide)⟩

/-- C8: the source-count indicator is rendered iff `sources_found > 0`,
its suffix is singular exactly when the count is 1, and the derived log
list the indicator accompanies is never empty (always 5 entries); at the
spec's concrete inputs: count 0 shows nothing, 1 shows "Found 1 source",
2 shows "Found 2 sources". -/
theorem c8_source_count (st : Option ResearchAgentState) :
    ((progressSourceCount st).isSome = decide (sourcesFoundOf st > 0))
    ∧ (sourcesFoundOf st > 0 →
        progressSourceCount st
          = some ("Found " ++ toString (sourcesFoundOf st) ++ " source"
              ++ (if sourcesFoundOf st = 1 then "" else "s")))
    ∧ (logsOfState st).length = 5
    ∧ progressSourceCount (stateWithSources 0) = none
    ∧ progressSourceCount (stateWithSources 1) = some "Found 1 source"
    ∧ progressSourceCount (stateWithSources 2) = some "Found 2 sources" := by
  refine ⟨?_, ?_, ?_, by decide, by decide, by decide⟩
  · by_cases h : sourcesFoundOf st > 0 <;> simp [progressSourceCount, h]
  · intro h
    by_cases h1 : sourcesFoundOf st = 1 <;>
      simp [progressSourceCount, h, h1]
  · show (logsOfSteps (getStepsFromState st)).length = 5
    rw [logsOfSteps, mapWithIndex, mapWithIndexFrom_length]
    rw [getStepsFromState, List.length_map]
    rfl

/-- Witness for C8: the count-2 state satisfies the positivity hypothesis
and produces the plural text. -/
theorem c8_source_count_witness :
    progressSourceCount (stateWithSources 2)
      = some ("Found " ++ toString (sourcesFoundOf (stateWithSources 2)) ++ " source"
          ++ (if sourcesFoundOf (stateWithSources 2) = 1 then "" else "s")) :=
  (c8_source_count (stateWithSources 2)).2.1 (by decide)

/-- C6: every derived computation is total over partially-populated
state: a missing phase defaults to `idle` (so no step is completed or
current), a missing stage defaults to `"not_started"`, missing source
data defaults to zero/empty, and a missing processing record renders the
placeholder; no derivation can fail. -/
theorem c6_totality (st : Option ResearchAgentState) (running : Bool) :
    ((st.bind ResearchAgentState.status).bind Status.phase = none →
        statePhase st = "idle"
        ∧ (getStepsFromState st).map (fun s => (s.completed, s.current))
            = List.replicate 5 (false, false))
    ∧ ((st.bind ResearchAgentState.research).bind Research.stage = none →
        stateStage st = "not_started")
    ∧ ((st.bind ResearchAgentState.research).bind Research.sources_found = none →
        sourcesFoundOf st = 0)
    ∧ ((st.bind ResearchAgentState.research).bind Research.sources = none →
        sourcesOf st = [])
    ∧ (st.bind ResearchAgentState.processing = none →
        reportCanvas st running = placeholderView running) := by
  refine ⟨?_, ?_, ?_, ?_, ?_⟩
  · intro h
    have hp : statePhase st = "idle" := by simp [statePhase, h, jsOrString]
    refine ⟨hp, ?_⟩
    rw [getStepsFromState, hp]
    generalize stateStage st = stg
    simp only [List.map_map, allPhases, List.map_cons, List.map_nil,
      Function.comp_def, mkStep]
    decide
  · intro h; simp [stateStage, h, jsOrString]
  · intro h; simp [sourcesFoundOf, h]
  · intro h; simp [sourcesOf, h]
  · intro h; simp [reportCanvas, h]

/-- Witness for C6 at the wholly-absent state. -/
theorem c6_totality_witness :
    statePhase none = "idle"
    ∧ (getStepsFromState none).map (fun s => (s.completed, s.current))
        = List.replicate 5 (false, false)
    ∧ stateStage none = "not_started"
    ∧ sourcesFoundOf none = 0
    ∧ sourcesOf none = []
    ∧ reportCanvas none true = placeholderView true := by
  have h := c6_totality none true
  exact ⟨(h.1 rfl).1, (h.1 rfl).2, h.2.1 rfl, h.2.2.1 rfl, h.2.2.2.1 rfl,
    h.2.2.2.2 rfl⟩

/-- Counterexample to C9 as stated: the empty string is a non-null
report, yet the canvas renders the placeholder card, not the report
body — JS truthiness treats `""` like `null`. -/
theorem c9_counterexample :
    ((emptyReportState.bind ResearchAgentState.processing).bind Processing.report)
        = some ""
    ∧ reportCanvas emptyReportState true
        = ReportView.placeholder "Generating Report"
            "Your research report will appear here once the analysis is complete."
    ∧ reportCanvas emptyReportState true ≠ ReportView.reportBody "" := by
  refine ⟨rfl, rfl, ?_⟩
  decide

/-- C9 (amended): when the report is non-null *and non-empty* the report
body is rendered; when it is null or empty the placeholder is rendered,
with heading and message chosen by `running` — `true` gives the
"Generating Report" card, `false` the "Ready to Research" card, and the
two cards are distinct. -/
theorem c9_report_branching (st : Option ResearchAgentState) (running : Bool)
    (r : String) :
    (((st.bind ResearchAgentState.processing).bind Processing.report) = some r →
        r ≠ "" → reportCanvas st running = ReportView.reportBody r)
    ∧ ((((st.bind ResearchAgentState.processing).bind Processing.report) = none
        ∨ ((st.bind ResearchAgentState.processing).bind Processing.report) = some "") →
        reportCanvas st running = placeholderView running)
    ∧ placeholderView true
        = ReportView.placeholder "Generating Report"
            "Your research report will appear here once the analysis is complete."
    ∧ placeholderView false
        = ReportView.placeholder "Ready to Research"
            "Ask me to research any topic and I'll generate a comprehensive, well-structured report for you."
    ∧ placeholderView true ≠ placeholderView false := by
  refine ⟨?_, ?_, rfl, rfl, by decide⟩
  · intro h hr
    simp [reportCanvas, h, hr]
  · intro h
    rcases h with h | h <;> simp [reportCanvas, h]

/-- Witness for C9 (amended): a concrete markdown report selects the
report-body branch, and an absent report with `running = false` selects
the idle placeholder. -/
theorem c9_report_branching_witness :
    reportCanvas titledReportState true = ReportView.reportBody "# Title\n\nBody"
    ∧ reportCanvas none false = placeholderView false :=
  ⟨(c9_report_branching titledReportState true "# Title\n\nBody").1 rfl (by decide),
   (c9_report_branching none false "").2.1 (Or.inl rfl)⟩

/-- C7: the two page variants derive identical step lists and identical
log sequences from identical state; they differ only in the progress
visibility policy — page.tsx shows progress for every run status, the
variant only for `inProgress` or `complete`. -/
theorem c7_variants_agree (st : Option ResearchAgentState) (runStatus : String) :
    PageB.getStepsFromState st = getStepsFromState st
    ∧ PageB.logsOfState st = logsOfState st
    ∧ showsProgress runStatus = true
    ∧ PageB.showsProgress runStatus
        = (runStatus == "inProgress" || runStatus == "complete") :=
  ⟨rfl, rfl, rfl, rfl⟩

/-- The event fold only appends to `pending` (one fire time per terminal
event) and never touches `stopCalls`. -/
theorem handleFold_spec (events : List (Nat × String)) :
    ∀ s : ControllerState,
      (events.foldl (fun s e => handleNodeEvent e.1 e.2 s) s).pending
          = s.pending
            ++ (events.filter (fun e => e.2 == "__end__")).map (fun e => e.1 + 1000)
      ∧ (events.foldl (fun s e => handleNodeEvent e.1 e.2 s) s).stopCalls
          = s.stopCalls := by
  induction events with
  | nil => intro s; simp
  | cons e tl ih =>
      intro s
      by_cases he : e.2 == "__end__"
      · have := ih (handleNodeEvent e.1 e.2 s)
        simp only [List.foldl_cons, List.filter_cons, he, if_pos, List.map_cons]
        rw [this.1, this.2]
        simp [handleNodeEvent, he]
      · have := ih (handleNodeEvent e.1 e.2 s)
        simp only [List.foldl_cons, List.filter_cons, he]
        rw [this.1, this.2]
        simp [handleNodeEvent, he]

/-- The timer fold appends every pending fire time to `stopCalls`. -/
theorem fireFold_spec (l : List Nat) :
    ∀ s : ControllerState,
      (l.foldl (fun s t => fireStopCallback t s) s).stopCalls
        = s.stopCalls ++ l := by
  induction l with
  | nil => intro s; simp
  | cons t tl ih =>
      intro s
      simp only [List.foldl_cons]
      rw [ih (fireStopCallback t s)]
      simp [fireStopCallback]

/-- Counterexample to C2 as stated: with terminal-node events at 0 ms
and 200 ms, the external stop operation is invoked twice (at 1000 ms and
1200 ms), not exactly once — each terminal event schedules its own
un-guarded timer. -/
theorem c2_counterexample :
    (runTrace [(0, "__end__"), (200, "__end__")]).stopCalls = [1000, 1200]
    ∧ (runTrace [(0, "__end__"), (200, "__end__")]).stopCalls.length ≠ 1 := by
  refine ⟨rfl, by decide⟩

/-- C2 (amended): the handler schedules one un-cancelled, un-guarded
stop callback per terminal-node event, 1000 ms after that event, so over
a finite trace the external stop operation is invoked once per terminal
event — in particular twice, at 1000 ms and 1200 ms, for the two-event
scenario; the in-progress flag is reset by each callback but never
consulted, so it prevents no duplicate call. -/
theorem c2_stop_per_terminal_event (events : List (Nat × String)) :
    (runTrace events).stopCalls
        = (events.filter (fun e => e.2 == "__end__")).map (fun e => e.1 + 1000)
    ∧ (runTrace events).stopCalls.length
        = (events.filter (fun e => e.2 == "__end__")).length
    ∧ (runTrace [(0, "__end__"), (200, "__end__")]).stopCalls = [1000, 1200] := by
  have h := handleFold_spec events initController
  have hfire := fireFold_spec
    ((events.foldl (fun s e => handleNodeEvent e.1 e.2 s) initController).pending)
    { (events.foldl (fun s e => handleNodeEvent e.1 e.2 s) initController) with
        pending := [] }
  have hmain : (runTrace events).stopCalls
      = (events.filter (fun e => e.2 == "__end__")).map (fun e => e.1 + 1000) := by
    rw [runTrace]
    simp only at hfire
    rw [hfire, h.2, h.1]
    simp [initController]
  exact ⟨hmain, by rw [hmain, List.length_map], rfl⟩

/-- `findIndex` returns `-1` when no element satisfies the predicate. -/
theorem jsFindIndex_eq_neg_one {α : Type} (p : α → Bool) :
    ∀ l : List α, (∀ a ∈ l, p a = false) → jsFindIndex p l = -1
  | [], _ => rfl
  | a :: tl, h => by
      have ha : p a = false := h a (by simp)
      have htl := jsFindIndex_eq_neg_one p tl (fun b hb => h b (by simp [hb]))
      simp [jsFindIndex, ha, htl]

/-- `findIndex` returns the index of the unique satisfying element. -/
theorem jsFindIndex_unique {α : Type} (p : α → Bool) :
    ∀ (l : List α) (k : Nat) (a : α), l[k]? = some a → p a = true →
      (∀ j b, l[j]? = some b → j ≠ k → p b = false) →
      jsFindIndex p l = k
  | [], k, a, h, _, _ => by simp at h
  | c :: tl, k, a, h, hp, huniq => by
      by_cases hc : p c = true
      · have hk : k = 0 := by
          by_contra hk0
          have hfc := huniq 0 c (by simp) (fun e => hk0 e.symm)
          rw [hc] at hfc
          exact absurd hfc (by decide)
        subst hk
        simp [jsFindIndex, hc]
      · have hcf : p c = false := by
          cases hpc : p c
          · rfl
          · exact absurd hpc hc
        have hk0 : k ≠ 0 := by
          intro e; subst e
          have hca : c = a := by simpa using h
          rw [hca, hp] at hcf
          exact absurd hcf (by decide)
        obtain ⟨k', rfl⟩ : ∃ k', k = k' + 1 := ⟨k - 1, by omega⟩
        have htl : tl[k']? = some a := by simpa using h
        have huniq' : ∀ j b, tl[j]? = some b → j ≠ k' → p b = false := by
          intro j b hj hne
          exact huniq (j + 1) b (by simpa using hj) (by omega)
        have ih := jsFindIndex_unique p tl k' a htl hp huniq'
        simp only [jsFindIndex, hcf]
        rw [ih]
        have hne1 : ((k' : Int)) ≠ -1 := by omega
        simp [hne1]

/-- C3: the log derivation yields one entry per step, in order, with
`message = label ++ ": " ++ description` and
`done = completed || (index < currentStepIndex)`; when no step is
current the index is `-1` and `done` equals `completed`; when a unique
step is current, `currentStepIndex` is exactly its index. -/
theorem c3_log_entries (steps : List DerivedStep) :
    (logsOfSteps steps).length = steps.length
    ∧ (∀ (i : Nat) (s : DerivedStep), steps[i]? = some s →
        (logsOfSteps steps)[i]? = some
          { done := s.completed
              || decide ((i : Int) < jsFindIndex (fun s => s.current) steps)
            message := s.label ++ ": " ++ s.description })
    ∧ ((∀ s ∈ steps, s.current = false) →
        ∀ (i : Nat) (s : DerivedStep), steps[i]? = some s →
          (logsOfSteps steps)[i]? = some
            { done := s.completed, message := s.label ++ ": " ++ s.description })
    ∧ (∀ (k : Nat) (s : DerivedStep), steps[k]? = some s → s.current = true →
        (∀ (j : Nat) (t : DerivedStep), steps[j]? = some t → j ≠ k → t.current = false) →
        jsFindIndex (fun s => s.current) steps = (k : Int)) := by
  refine ⟨mapWithIndexFrom_length _ 0 steps, ?_, ?_, ?_⟩
  · intro i s hs
    simp only [logsOfSteps, mapWithIndex]
    rw [mapWithIndexFrom_getElem?, hs]
    simp
  · intro hnone i s hs
    have hfi : jsFindIndex (fun s => s.current) steps = -1 :=
      jsFindIndex_eq_neg_one _ steps hnone
    simp only [logsOfSteps, mapWithIndex]
    rw [mapWithIndexFrom_getElem?, hs]
    have hlt : ¬ (((0 + i : Nat) : Int) < -1) := by omega
    simp [hfi, hlt]
    intro h
    exact absurd h (by omega)
  · intro k s hk hcur huniq
    exact jsFindIndex_unique _ steps k s hk hcur huniq

/-- Two concrete steps used by the C3 witness: the first completed, the
second current. -/
def demoSteps : List DerivedStep :=
  [{ id := "a", label := "A", description := "first step",
     completed := true, current := false },
   { id := "b", label := "B", description := "second step",
     completed := false, current := true }]

/-- Witness for C3 at `demoSteps`: the entry formula at index 0 and the
unique-current index computation. -/
theorem c3_log_entries_witness :
    (logsOfSteps demoSteps).length = demoSteps.length
    ∧ (logsOfSteps demoSteps)[0]? = some
        { done := true || decide ((0 : Int) < jsFindIndex (fun s => s.current) demoSteps)
          message := "A" ++ ": " ++ "first step" }
    ∧ jsFindIndex (fun s => s.current) demoSteps = 1 := by
  refine ⟨(c3_log_entries demoSteps).1, ?_, ?_⟩
  · exact (c3_log_entries demoSteps).2.1 0
      { id := "a", label := "A", description := "first step",
        completed := true, current := false } rfl
  · refine (c3_log_entries demoSteps).2.2.2 1
      { id := "b", label := "B", description := "second step",
        completed := false, current := true } rfl rfl ?_
    intro j t hj hne
    match j, hj with
    | 0, hj => simp [demoSteps] at hj; rw [← hj]
    | 1, hj => exact absurd rfl hne
    | n + 2, hj => simp [demoSteps] at hj

/-- `indexOf` maps the i-th phase of the fixed sequence back to `i`. -/
theorem jsIndexOf_allPhases_getElem (i : Nat) (p : String)
    (h : allPhases[i]? = some p) : jsIndexOf allPhases p = (i : Int) := by
  rcases i with _ | _ | _ | _ | _ | i <;> simp [allPhases] at h <;>
    subst h <;> decide

/-- `getStepsFromState` in terms of its two defaulted inputs. -/
theorem getStepsFromState_repr (st : Option ResearchAgentState) :
    getStepsFromState st
      = allPhases.map (mkStep (statePhase st) (stateStage st)) := rfl

/-- Core of C1, for arbitrary defaulted phase and stage strings. -/
theorem stepsCore_spec (cp stg : String) :
    (∀ (i : Nat) (s : DerivedStep),
        (allPhases.map (mkStep cp stg))[i]? = some s →
        s.completed = decide (jsIndexOf allPhases cp > (i : Int))
        ∧ s.current = (cp == allPhases.getD i ""))
    ∧ ((allPhases.map (mkStep cp stg)).countP (fun s => s.current)
        = if cp ∈ allPhases then 1 else 0)
    ∧ List.Pairwise
        (fun a b => (b.current = true → a.completed = true)
          ∧ (a.current = true → b.completed = false ∧ b.current = false))
        (allPhases.map (mkStep cp stg)) := by
  refine ⟨?_, ?_, ?_⟩
  · intro i s hs
    rw [List.getElem?_map] at hs
    cases hp : allPhases[i]? with
    | none => rw [hp] at hs; simp at hs
    | some p =>
        rw [hp] at hs
        simp only [Option.map_some', Option.some.injEq] at hs
        subst hs
        constructor
        · simp only [mkStep]
          rw [jsIndexOf_allPhases_getElem i p hp]
        · simp only [mkStep, List.getD_eq_getElem?_getD, hp, Option.getD_some]
  · rw [List.countP_map]
    have hpred : ((fun s : DerivedStep => s.current) ∘ mkStep cp stg)
        = (fun p => cp == p) := by
      funext p
      simp [mkStep, Function.comp]
    rw [hpred]
    by_cases hmem : cp ∈ allPhases
    · have hm := hmem
      simp only [allPhases, List.mem_cons, List.not_mem_nil, or_false] at hm
      rw [if_pos hmem]
      rcases hm with h | h | h | h | h <;> subst h <;> decide
    · rw [if_neg hmem, List.countP_eq_zero]
      intro q hq
      simp only [beq_iff_eq]
      intro e
      subst e
      exact hmem hq
  · rw [List.pairwise_map]
    by_cases hmem : cp ∈ allPhases
    · have hm := hmem
      simp only [allPhases, List.mem_cons, List.not_mem_nil, or_false] at hm
      rcases hm with h | h | h | h | h <;> subst h <;>
        simp [allPhases, List.pairwise_cons, mkStep] <;> decide
    · have hne : ∀ q ∈ allPhases, (cp == q) = false := fun q hq =>
        beq_eq_false_iff_ne.mpr (fun e => hmem (e ▸ hq))
      apply List.pairwise_of_forall_mem_list
      intro a ha b hb
      constructor
      · intro hcur
        have hb' := hne b hb
        simp [mkStep, hb'] at hcur
      · intro hcur
        have ha' := hne a ha
        simp [mkStep, ha'] at hcur

/-- C1: for every state, step `i` is completed iff the current phase's
index in the fixed sequence exceeds `i`, and current iff the phase
equals the step's phase; exactly one step is current when the phase is
in the sequence, zero when it is `idle` (and never more than one); every
step before the current one is completed and every step after it is
neither completed nor current. -/
theorem c1_step_invariants (st : Option ResearchAgentState) :
    (∀ (i : Nat) (s : DerivedStep), (getStepsFromState st)[i]? = some s →
        s.completed = decide (jsIndexOf allPhases (statePhase st) > (i : Int))
        ∧ s.current = (statePhase st == allPhases.getD i ""))
    ∧ ((getStepsFromState st).countP (fun s => s.current)
        = if statePhase st ∈ allPhases then 1 else 0)
    ∧ (statePhase st = "idle" →
        (getStepsFromState st).countP (fun s => s.current) = 0)
    ∧ (getStepsFromState st).countP (fun s => s.current) ≤ 1
    ∧ List.Pairwise
        (fun a b => (b.current = true → a.completed = true)
          ∧ (a.current = true → b.completed = false ∧ b.current = false))
        (getStepsFromState st) := by
  rw [getStepsFromState_repr]
  generalize statePhase st = cp
  generalize stateStage st = stg
  obtain ⟨h1, h2, h5⟩ := stepsCore_spec cp stg
  refine ⟨h1, h2, ?_, ?_, h5⟩
  · intro hidle
    subst hidle
    rw [h2, if_neg (by decide)]
  · rw [h2]
    split <;> omega

/-- Witness for C1 at the absent state (phase defaults to `idle`): no
step is current, and the flag formulas hold at index 0. -/
theorem c1_step_invariants_witness :
    (getStepsFromState none).countP (fun s => s.current) = 0
    ∧ ((mkStep "idle" "not_started" "initialized").completed
          = decide (jsIndexOf allPhases (statePhase none) > (0 : Int))
        ∧ (mkStep "idle" "not_started" "initialized").current
          = (statePhase none == allPhases.getD 0 "")) :=
  ⟨(c1_step_invariants none).2.2.1 rfl,
   (c1_step_invariants none).1 0 (mkStep "idle" "not_started" "initialized") rfl⟩
